import Mathlib

/-!
Shallow embedding of the security-mediated execution pipeline of the
Kali-MCP-Commander repository: the tool registry and executor
(`src/tools/kali-tools.ts`), the global input screen
(`src/security/input-validator.ts`), the permission manager
(`src/security/permissions.ts`), the command history store
(`src/utils/command-history.ts`) and the task scheduler
(`src/utils/task-scheduler.ts`).  JavaScript objects become Lean
structures, `Record<string, T>` maps become association lists in
insertion order, exceptions become `Except`, and the effectful calls of
the pipeline (audit logging, telemetry capture, subprocess spawning) are
reified as an explicit event trace so that theorems can talk about what
was logged and whether a subprocess was spawned.
-/

namespace KaliMCP

/-! ### JavaScript values and argument maps -/

/-- A JavaScript argument value as it appears in a tool argument map
(`Record<string, any>` restricted to the kinds the tools use). -/
inductive Value where
  | vstr (s : String)
  | vnum (n : Int)
  | vbool (b : Bool)
deriving DecidableEq, Repr

/-- JavaScript `String(value)` coercion for the values above. -/
def valueToString : Value → String
  | .vstr s => s
  | .vnum n => toString n
  | .vbool b => if b then "true" else "false"

/-- JavaScript truthiness for the values above (`if (args.x)`). -/
def Value.truthy : Value → Bool
  | .vstr s => !(s == "")
  | .vnum n => !(n == 0)
  | .vbool b => b

/-- An argument map: JS object in key insertion order, keys unique. -/
abbrev Args := List (String × Value)

/-- `args[name]`: `none` models JavaScript `undefined`. -/
def lookupArg (args : Args) (name : String) : Option Value :=
  match args.find? (fun p => p.fst == name) with
  | some p => some p.snd
  | none => none

/-- Generic association-list lookup, modelling `Map.get` /
`Record` indexing. -/
def alistGet {α : Type} (m : List (String × α)) (k : String) : Option α :=
  match m.find? (fun p => p.fst == k) with
  | some p => some p.snd
  | none => none

/-- `Map.set`: overwrite the first binding of `k` in place, or append a
new binding at the end (JS `Map` insertion order). -/
def alistSet {α : Type} (m : List (String × α)) (k : String) (v : α) :
    List (String × α) :=
  match m with
  | [] => [(k, v)]
  | (k2, v2) :: rest =>
    if k2 == k then (k2, v) :: rest else (k2, v2) :: alistSet rest k v

/-- `Map.delete`: remove the first binding of `k`. -/
def alistDel {α : Type} (m : List (String × α)) (k : String) :
    List (String × α) :=
  match m with
  | [] => []
  | (k2, v2) :: rest =>
    if k2 == k then rest else (k2, v2) :: alistDel rest k

/-! ### String helpers shared by the embedded code -/

/-- `pat` occurs as a contiguous sublist of `l` (JS substring search). -/
def containsSub (l pat : List Char) : Bool :=
  match l with
  | [] => pat.isPrefixOf ([] : List Char)
  | _ :: tl => pat.isPrefixOf l || containsSub tl pat

/-- `s` contains `pat` as a substring. -/
def strContains (s pat : String) : Bool :=
  containsSub s.toList pat.toList

/-- JavaScript `toLowerCase()`, character by character. -/
def jsToLower (s : String) : String :=
  String.mk (s.toList.map Char.toLower)

/-- JavaScript `trim()`: strip leading and trailing whitespace. -/
def jsTrim (s : String) : String :=
  String.mk
    (((s.toList.dropWhile Char.isWhitespace).reverse.dropWhile
        Char.isWhitespace).reverse)

/-- JavaScript `startsWith(prefixStr)`. -/
def jsStartsWith (s pre : String) : Bool :=
  pre.toList.isPrefixOf s.toList

/-- Split a character list at every occurrence of a separator
character (the pieces, in order, possibly empty). -/
def splitChar (sep : Char) : List Char → List (List Char)
  | [] => [[]]
  | x :: xs =>
    match splitChar sep xs with
    | [] => if x == sep then [[], []] else [[x]]
    | h :: t => if x == sep then [] :: h :: t else (x :: h) :: t

/-- JavaScript `split(sep)` for a single-character separator. -/
def jsSplit (s : String) (sep : Char) : List String :=
  (splitChar sep s.toList).map String.mk

/-- JavaScript `a || b` for an optional string: the default is used
when the value is absent or empty (falsy). -/
def jsOrDefault (o : Option String) (d : String) : String :=
  match o with
  | some s => if s == "" then d else s
  | none => d

/-- `command.split(' ')[0]` without trimming, as used for the audit
resource of `executeCommand`. -/
def rawFirstToken (s : String) : String :=
  (jsSplit s ' ').headD ""

/-- The single-quote character (written via its code point). -/
def sq : Char := '\x27'

/-- The double-quote character. -/
def dq : Char := '\x22'

/-- The one-character string holding a single quote. -/
def sqs : String := String.mk [sq]

/-- First character of a string, if any. -/
def strHead? (s : String) : Option Char := s.toList.head?

/-- Last character of a string, if any. -/
def strLast? (s : String) : Option Char := s.toList.getLast?

/-- `command.split(' ')[0]` after `trim`: the first space-separated
token of the trimmed string. -/
def firstToken (s : String) : String :=
  (jsSplit (jsTrim s) ' ').headD ""

/-! ### `InputValidator` (`src/security/input-validator.ts`) -/

/-- `InputValidator.COMMAND_BLACKLIST`. -/
def commandBlacklist : List String :=
  ["rm -rf", "mkfs", "dd if=", "shutdown", "reboot", "halt", "poweroff",
   "init", "killall", "pkill", "kill", "chmod 777", "chown -R", "mv /",
   "> /dev/sd", "mkfs", "mknod", "wget", "curl"]

/-- `PATH_TRAVERSAL_REGEX`: `../` or `..\`. -/
def hasTraversal (s : String) : Bool :=
  strContains s "../" || strContains s "..\\"

/-- `DANGEROUS_CHARS_REGEX` character class (pipe, ampersand, semicolon,
backtick, dollar, parentheses, braces, brackets, angle brackets). -/
def dangerousChars : List Char :=
  ['|', '&', ';', '\x60', '$', '(', ')', '\x7b', '\x7d', '[', ']', '<', '>']

/-- The string contains a shell metacharacter. -/
def hasDangerousChar (s : String) : Bool :=
  s.toList.any (fun c => dangerousChars.contains c)

/-- The blacklist test of `validateCommand`: the (already normalized)
command starts with one of the blacklisted prefixes. -/
def blacklistHit (s : String) : Bool :=
  commandBlacklist.any (fun b => jsStartsWith s b)

/-- The normalization applied by `validateCommand`:
`command.toLowerCase().trim()`. -/
def normalizeCmdText (s : String) : String := jsTrim (jsToLower s)

/-- Result record of `InputValidator.validateCommand`. -/
structure CmdCheck where
  valid : Bool
  reason : Option String := none
deriving DecidableEq, Repr

/-- `InputValidator.validateCommand` (the global dangerous-input
screen): empty command, blacklisted prefix, path traversal, shell
metacharacters, then a length cap. -/
def validateCommand (command : String) : CmdCheck :=
  if command == "" then
    { valid := false, reason := some "Command must be a non-empty string" }
  else if blacklistHit (normalizeCmdText command) then
    { valid := false, reason := some "Command contains blacklisted pattern" }
  else if hasTraversal (normalizeCmdText command) then
    { valid := false, reason := some "Path traversal detected" }
  else if hasDangerousChar (normalizeCmdText command) then
    { valid := false,
      reason := some "Command contains potentially dangerous characters" }
  else if 4096 < command.length then
    { valid := false, reason := some "Command too long" }
  else
    { valid := true }

/-! ### `KaliToolManager.escapeShellArg` (`src/tools/kali-tools.ts`) -/

/-- The safe character class of `escapeShellArg`'s pass-through regex:
ASCII alphanumerics plus `_ - / . : ? = & % @ + ~ ,`. -/
def safeChar (c : Char) : Bool :=
  c.isAlphanum ||
    ['_', '-', '/', '.', ':', '?', '=', '&', '%', '@', '+', '~', ','].contains c

/-- `arg.replace(/'/g, "'\\''")`: each single quote becomes the
four-character close-escape-reopen sequence quote, backslash, quote,
quote. -/
def escQuotes (s : String) : String :=
  String.mk (s.toList.foldr
    (fun c acc => (if c == sq then [sq, '\\', sq, sq] else [c]) ++ acc) [])

/-- `KaliToolManager.escapeShellArg`.  The single-character
`startsWith` / `endsWith` tests of the source are modelled as tests on
the first and last character. -/
def escapeShellArg (arg : String) : String :=
  if arg == "" then
    sqs ++ sqs
  else if (strHead? arg == some sq && strLast? arg == some sq) ||
          (strHead? arg == some dq && strLast? arg == some dq) then
    arg
  else if arg.toList.all safeChar then
    arg
  else
    sqs ++ escQuotes arg ++ sqs

/-! ### Tool definitions and the `KALI_TOOLS` catalog -/

/-- Parameter kinds of a tool argument spec. -/
inductive ArgType where
  | str
  | num
  | bool
  | file
  | directory
deriving DecidableEq, Repr

/-- Result record of a per-argument or per-output validator
(`{ valid: boolean; error?: string }`). -/
structure CheckResult where
  valid : Bool
  error : Option String := none
deriving DecidableEq, Repr

/-- One entry of a tool's `args` array. -/
structure ArgDef where
  name : String
  description : String := ""
  required : Bool
  type : ArgType
  default : Option Value := none
  validation : Option (Value → CheckResult) := none

/-- A `ToolDefinition` of the catalog. -/
structure ToolDefinition where
  name : String
  description : String := ""
  command : String
  args : List ArgDef
  validateOutput : Option (String → CheckResult) := none
  timeout : Nat := 300000

/-- Label part of the subfinder domain pattern: hyphen-separated groups
of alphanumerics, none empty (`[a-z0-9]+(-[a-z0-9]+)*` with the `i`
flag). -/
def domainLabel (s : String) : Bool :=
  (jsSplit s '-').all (fun p => !(p == "") && p.toList.all Char.isAlphanum)

/-- The subfinder domain regex
`^([a-z0-9]+(-[a-z0-9]+)*\.)+[a-z]{2,}$/i`: one or more labels, a dot
after each, then an alphabetic top-level part of length at least 2. -/
def domainCheck (s : String) : Bool :=
  let parts := jsSplit s '.'
  decide (2 ≤ parts.length) && parts.dropLast.all domainLabel &&
    (match parts.getLast? with
     | some t => decide (2 ≤ t.length) && t.toList.all Char.isAlpha
     | none => false)

/-- Characters of the nmap target class `[a-zA-Z0-9.-]`. -/
def hostChar (c : Char) : Bool :=
  c.isAlphanum || c == '.' || c == '-'

/-- The nmap target regex `^[a-zA-Z0-9.-]+(?:\/[0-9]{1,2})?$`:
hostname/IP characters, optionally followed by a slash and one or two
digits of CIDR width. -/
def nmapTargetCheck (s : String) : Bool :=
  match jsSplit s '/' with
  | [a] => !(a == "") && a.toList.all hostChar
  | [a, d] =>
    !(a == "") && a.toList.all hostChar &&
      (d.length == 1 || d.length == 2) && d.toList.all Char.isDigit
  | _ => false

/-- A nonempty all-digit string (`[0-9]+`). -/
def digits1 (s : String) : Bool :=
  !(s == "") && s.toList.all Char.isDigit

/-- One comma-separated part of the nmap ports pattern: a port or a
dash-separated range (`[0-9]+(-[0-9]+)?`). -/
def portsPart (s : String) : Bool :=
  match jsSplit s '-' with
  | [x] => digits1 x
  | [x, y] => digits1 x && digits1 y
  | _ => false

/-- The nmap ports regex `^([0-9]+(-[0-9]+)?)(,[0-9]+(-[0-9]+)?)*$`. -/
def portsCheck (s : String) : Bool :=
  (jsSplit s ',').all portsPart

/-- JavaScript `Number(...)`-style reading of a value, used by the
sqlmap risk bound check (`value >= 1 && value <= 3`). -/
def toNumber? : Value → Option Int
  | .vnum n => some n
  | .vbool b => some (if b then 1 else 0)
  | .vstr s => s.toInt?

/-- The metasploit command screen `/rm\s|mv\s|>\s*\//`: `rm` or `mv`
followed by whitespace, or `>` followed by optional whitespace and a
slash, anywhere in the string. -/
def msfHit : List Char → Bool
  | [] => false
  | c :: rest =>
    (c == 'r' && (match rest with
                  | c2 :: c3 :: _ => c2 == 'm' && c3.isWhitespace
                  | _ => false)) ||
    (c == 'm' && (match rest with
                  | c2 :: c3 :: _ => c2 == 'v' && c3.isWhitespace
                  | _ => false)) ||
    (c == '>' && (match rest.dropWhile Char.isWhitespace with
                  | c2 :: _ => c2 == '/'
                  | _ => false)) ||
    msfHit rest

/-- `KALI_TOOLS.subfinder`. -/
def subfinderDef : ToolDefinition :=
  { name := "subfinder"
    description := "Subdomain discovery tool that discovers valid subdomains for websites"
    command := "subfinder"
    args :=
      [{ name := "domain", required := true, type := .str,
         validation := some (fun v =>
           { valid := domainCheck (valueToString v),
             error := some "Invalid domain format" }) },
       { name := "all", required := false, type := .bool,
         default := some (.vbool false) },
       { name := "output", required := false, type := .file }]
    timeout := 300000 }

/-- `KALI_TOOLS.naabu`. -/
def naabuDef : ToolDefinition :=
  { name := "naabu"
    description := "Fast port scanner for network discovery and security auditing"
    command := "naabu"
    args :=
      [{ name := "host", required := true, type := .str },
       { name := "ports", required := false, type := .str,
         default := some (.vstr "80,443,8080,8443") },
       { name := "top-ports", required := false, type := .str },
       { name := "output", required := false, type := .file }]
    timeout := 600000 }

/-- `KALI_TOOLS.httpx`. -/
def httpxDef : ToolDefinition :=
  { name := "httpx"
    description := "Fast and multi-purpose HTTP toolkit"
    command := "httpx"
    args :=
      [{ name := "target", required := true, type := .str },
       { name := "title", required := false, type := .bool,
         default := some (.vbool true) },
       { name := "status-code", required := false, type := .bool,
         default := some (.vbool true) },
       { name := "tech-detect", required := false, type := .bool,
         default := some (.vbool false) },
       { name := "output", required := false, type := .file }]
    timeout := 300000 }

/-- `KALI_TOOLS.nuclei`. -/
def nucleiDef : ToolDefinition :=
  { name := "nuclei"
    description := "Fast vulnerability scanner based on simple YAML based DSL"
    command := "nuclei"
    args :=
      [{ name := "target", required := true, type := .str },
       { name := "templates", required := false, type := .str },
       { name := "severity", required := false, type := .str,
         validation := some (fun v =>
           { valid := ["info", "low", "medium", "high", "critical", ""].contains
               (jsToLower (valueToString v)),
             error := some "Invalid severity level" }) },
       { name := "output", required := false, type := .file }]
    timeout := 1200000 }

/-- `KALI_TOOLS.dnsx`. -/
def dnsxDef : ToolDefinition :=
  { name := "dnsx"
    description := "Fast and multi-purpose DNS toolkit"
    command := "dnsx"
    args :=
      [{ name := "target", required := true, type := .str },
       { name := "a", required := false, type := .bool,
         default := some (.vbool true) },
       { name := "cname", required := false, type := .bool,
         default := some (.vbool false) },
       { name := "output", required := false, type := .file }]
    timeout := 300000 }

/-- `KALI_TOOLS.nmap`. -/
def nmapDef : ToolDefinition :=
  { name := "nmap"
    description := "Network exploration tool and security/port scanner"
    command := "nmap"
    args :=
      [{ name := "target", required := true, type := .str,
         validation := some (fun v =>
           { valid := nmapTargetCheck (valueToString v),
             error := some "Invalid target format. Use hostname, IP, or CIDR notation" }) },
       { name := "scan_type", required := false, type := .str,
         default := some (.vstr "-sS"),
         validation := some (fun v =>
           { valid := match v with
               | .vstr s => ["-sS", "-sT", "-sU", "-sV", "-A"].contains s
               | _ => false,
             error := some "Invalid scan type" }) },
       { name := "ports", required := false, type := .str,
         default := some (.vstr "1-1024"),
         validation := some (fun v =>
           { valid := portsCheck (valueToString v),
             error := some "Invalid port range format" }) }]
    timeout := 300000 }

/-- `KALI_TOOLS.sqlmap`. -/
def sqlmapDef : ToolDefinition :=
  { name := "sqlmap"
    description := "Automatic SQL injection and database takeover tool"
    command := "sqlmap"
    args :=
      [{ name := "url", required := true, type := .str,
         validation := some (fun v =>
           { valid := jsStartsWith (valueToString v) "http",
             error := some "URL must start with http:// or https://" }) },
       { name := "risk", required := false, type := .num,
         default := some (.vnum 1),
         validation := some (fun v =>
           { valid := match toNumber? v with
               | some n => decide (1 ≤ n ∧ n ≤ 3)
               | none => false,
             error := some "Risk must be between 1 and 3" }) }]
    timeout := 600000 }

/-- `KALI_TOOLS.metasploit` (tool name `msfconsole`). -/
def metasploitDef : ToolDefinition :=
  { name := "msfconsole"
    description := "Metasploit Framework console"
    command := "msfconsole"
    args :=
      [{ name := "command", required := true, type := .str,
         validation := some (fun v =>
           { valid := !(msfHit (valueToString v).toList),
             error := some "Potentially dangerous command detected" }) }]
    timeout := 300000 }

/-- `KALI_TOOLS.nikto`. -/
def niktoDef : ToolDefinition :=
  { name := "nikto"
    description := "Web server scanner"
    command := "nikto"
    args :=
      [{ name := "host", required := true, type := .str },
       { name := "port", required := false, type := .num,
         default := some (.vnum 80) }]
    timeout := 300000 }

/-- `KALI_TOOLS.john`. -/
def johnDef : ToolDefinition :=
  { name := "john"
    description := "Password cracker"
    command := "john"
    args :=
      [{ name := "hash_file", required := true, type := .file },
       { name := "wordlist", required := false, type := .file,
         default := some (.vstr "/usr/share/wordlists/rockyou.txt") }]
    timeout := 1800000 }

/-- The `KALI_TOOLS` record in key insertion order. -/
def kaliTools : List (String × ToolDefinition) :=
  [("subfinder", subfinderDef), ("naabu", naabuDef), ("httpx", httpxDef),
   ("nuclei", nucleiDef), ("dnsx", dnsxDef), ("nmap", nmapDef),
   ("sqlmap", sqlmapDef), ("metasploit", metasploitDef),
   ("nikto", niktoDef), ("john", johnDef)]

/-! ### `KaliToolManager.validateArguments` -/

/-- The loop body of `validateArguments`: for each argument spec in
order, a missing required value fails immediately; a supplied value is
run through the spec's validator when one exists. -/
def validateArgList (args : Args) : List ArgDef → CheckResult
  | [] => { valid := true }
  | d :: rest =>
    match lookupArg args d.name with
    | none =>
      if d.required then
        { valid := false, error := some ("Missing required argument: " ++ d.name) }
      else validateArgList args rest
    | some v =>
      match d.validation with
      | some f =>
        let r := f v
        if r.valid then validateArgList args rest
        else
          { valid := false,
            error := some ("Invalid value for " ++ d.name ++ ": " ++
              (r.error.getD "undefined")) }
      | none => validateArgList args rest

/-- `KaliToolManager.validateArguments`. -/
def validateArguments (tool : ToolDefinition) (args : Args) : CheckResult :=
  validateArgList args tool.args

/-! ### `KaliToolManager.buildCommand` -/

/-- The Project Discovery tool names that use entry-order flag
formatting. -/
def pdTools : List String :=
  ["subfinder", "naabu", "httpx", "nuclei", "dnsx"]

/-- Long/short flag for an argument name: `-x` for single-character
names, `--name` otherwise. -/
def flagName (n : String) : String :=
  (if n.length == 1 then "-" else "--") ++ n

/-- The Project Discovery branch of `buildCommand`: iterate the
supplied entries in insertion order, skip empty values and names with
no spec, emit bare flags for `true` booleans, and `--name value` pairs
otherwise, escaping everything except a string-valued `output` path. -/
def buildPdParts (tool : ToolDefinition) : Args → List String
  | [] => []
  | (argName, argValue) :: rest =>
    if argValue == .vstr "" then buildPdParts tool rest
    else
      match tool.args.find? (fun a => a.name == argName) with
      | none => buildPdParts tool rest
      | some d =>
        if d.type == ArgType.bool then
          (if argValue == .vbool true then [flagName argName] else []) ++
            buildPdParts tool rest
        else
          [flagName argName] ++
            (match argValue with
             | .vstr s =>
               if argName == "output" then [s]
               else [escapeShellArg s]
             | v => [escapeShellArg (valueToString v)]) ++
            buildPdParts tool rest

/-- The default branch of `buildCommand`: iterate the tool's argument
specs in order; a missing or empty required value throws, `true`
booleans emit a bare `--name`, and other values emit `--name` followed
by the escaped value. -/
def buildDefaultParts (args : Args) : List ArgDef → Except String (List String)
  | [] => .ok []
  | d :: rest =>
    let v? := lookupArg args d.name
    if v? == none || v? == some (.vstr "") then
      if d.required then .error ("Missing required argument: " ++ d.name)
      else buildDefaultParts args rest
    else
      match v? with
      | none => buildDefaultParts args rest
      | some v =>
        if d.type == ArgType.bool then
          (buildDefaultParts args rest).map
            (fun parts => (if v == .vbool true then ["--" ++ d.name] else []) ++ parts)
        else
          (buildDefaultParts args rest).map
            (fun parts => ["--" ++ d.name, escapeShellArg (valueToString v)] ++ parts)

/-- `KaliToolManager.buildCommand`: nmap positional mode, Project
Discovery entry-order mode, or the default spec-order mode.  A thrown
`Error` is an `Except.error`. -/
def buildCommand (tool : ToolDefinition) (args : Args) : Except String String :=
  if tool.name == "nmap" then
    let p1 := match lookupArg args "scan_type" with
      | some v => if v.truthy then [valueToString v] else []
      | none => []
    let p2 := match lookupArg args "ports" with
      | some v => if v.truthy then ["-p " ++ valueToString v] else []
      | none => []
    let p3 := match lookupArg args "target" with
      | some v => if v.truthy then [valueToString v] else []
      | none => []
    .ok (String.intercalate " " ([tool.command] ++ p1 ++ p2 ++ p3))
  else if pdTools.contains tool.name then
    .ok (String.intercalate " " ([tool.command] ++ buildPdParts tool args))
  else
    (buildDefaultParts args tool.args).map
      (fun parts => String.intercalate " " ([tool.command] ++ parts))

/-! ### `KaliToolManager.executeTool` with a reified effect trace -/

/-- One audit-log entry as submitted to `auditLogger.log` (the
free-form metadata map is not modelled). -/
structure AuditEv where
  action : String
  status : String
  userId : Option String := none
  resource : Option String := none
deriving DecidableEq, Repr

/-- An observable effect of the execution pipeline: an audit-log write,
a subprocess spawn, or a telemetry capture. -/
inductive Ev where
  | audit (e : AuditEv)
  | spawn (cmd : String)
  | telemetry (name : String)
deriving DecidableEq, Repr

/-- The `ServerResult` returned to the caller: the single text content
block and the error flag. -/
structure ServerResult where
  text : String
  isError : Bool
deriving DecidableEq, Repr

/-- Outcome of the one subprocess run by `executeCommand`, supplied as
an oracle for the external world. -/
inductive ExecOutcome where
  | success (stdout : String)
  | failure (msg : String)

/-- `userId || 'system'`. -/
def orSystem (userId : String) : String :=
  if userId == "" then "system" else userId

/-- The audit and telemetry events of the `catch` branch of
`executeTool`. -/
def failEvents (toolName userId : String) : List Ev :=
  [.audit { action := "tool_execution_failed", status := "failure",
            userId := some (orSystem userId), resource := some toolName },
   .telemetry "tool_execution_failed"]

/-- The error `ServerResult` of the `catch` branch. -/
def errResult (toolName msg : String) : ServerResult :=
  { text := "Error executing " ++ toolName ++ ": " ++ msg, isError := true }

/-- `KaliToolManager.executeTool`, with every audit write, telemetry
capture and subprocess spawn reified into the returned event list in
program order.  `exec` is the oracle giving the outcome of the one
subprocess `executeCommand` would spawn. -/
def executeTool (tools : List (String × ToolDefinition)) (toolName : String)
    (args : Args) (userId : String) (exec : String → ExecOutcome) :
    ServerResult × List Ev :=
  match alistGet tools toolName with
  | none => ({ text := "Tool not found: " ++ toolName, isError := true }, [])
  | some tool =>
    let startEvs : List Ev :=
      [.audit { action := "tool_execution_started", status := "success",
                userId := some userId, resource := some toolName }]
    let v := validateArguments tool args
    if v.valid then
      match buildCommand tool args with
      | .error msg =>
        -- the throw inside buildCommand lands in the catch branch
        (errResult toolName msg, startEvs ++ failEvents toolName userId)
      | .ok command =>
        match exec command with
        | .failure emsg =>
          let evs := startEvs ++
            [.spawn command,
             .audit { action := "command_failed", status := "failure",
                      userId := some "system",
                      resource := some (rawFirstToken command) },
             .telemetry "command_failed"]
          -- executeCommand rethrows `Command failed: ...` into the catch
          (errResult toolName ("Command failed: " ++ emsg),
           evs ++ failEvents toolName userId)
        | .success out =>
          let evs := startEvs ++
            [.spawn command,
             .audit { action := "command_executed", status := "success",
                      userId := some "system",
                      resource := some (rawFirstToken command) },
             .telemetry "command_executed"]
          match tool.validateOutput with
          | some f =>
            let r := f out
            if r.valid then
              ({ text := out, isError := false },
               evs ++ [.audit { action := "tool_executed", status := "success",
                                userId := some (orSystem userId),
                                resource := some toolName },
                       .telemetry "tool_executed"])
            else
              (errResult toolName
                 ("Output validation failed: " ++ r.error.getD "undefined"),
               evs ++ failEvents toolName userId)
          | none =>
            ({ text := out, isError := false },
             evs ++ [.audit { action := "tool_executed", status := "success",
                              userId := some (orSystem userId),
                              resource := some toolName },
                     .telemetry "tool_executed"])
    else
      -- validation failure: early return, no further audit write
      ({ text := "Invalid arguments: " ++ v.error.getD "undefined",
         isError := true }, startEvs)

/-- Number of audit events with the given action tag in a trace. -/
def countAudit (evs : List Ev) (action : String) : Nat :=
  (evs.filter (fun e => match e with
    | .audit a => a.action == action
    | _ => false)).length

/-- Whether a trace contains a subprocess spawn. -/
def hasSpawn (evs : List Ev) : Bool :=
  evs.any (fun e => match e with
    | .spawn _ => true
    | _ => false)

/-! ### `PermissionManager` (`src/security/permissions.ts`) -/

/-- A permission pattern: an exact command string or a regular
expression, the latter embedded as its match predicate. -/
inductive Pattern where
  | exact (s : String)
  | regex (test : String → Bool)

/-- A `PermissionRule` (the rate-limit spec is carried but not
interpreted here). -/
structure PermRule where
  command : Pattern
  allowed : Bool
  roles : Option (List String) := none
  maxConcurrent : Option Nat := none
  rateLimit : Option (Nat × Nat) := none

/-- `PermissionManager.matchCommand`: string patterns compare for
equality, regex patterns run their test. -/
def matchCommand (cmd : String) : Pattern → Bool
  | .exact s => cmd == s
  | .regex f => f cmd

/-- The `activeCommands` map: identity to the set of in-flight command
strings, as a JS `Map` of `Set`s in insertion order. -/
abbrev ActiveMap := List (String × List String)

/-- Size of an identity's in-flight command set. -/
def activeCount (m : ActiveMap) (userId : String) : Nat :=
  ((alistGet m userId).getD []).length

/-- `PermissionManager.checkPermission` as a pure decision over the
rule list and the `activeCommands` state (the fire-and-forget audit
write on the allowed path does not affect the decision and is not
modelled). -/
def checkPermission (rules : List PermRule) (active : ActiveMap)
    (command userId : String) (userRoles : List String) :
    Bool × Option String :=
  let normalizedCmd := firstToken command
  let matching := rules.filter (fun r => matchCommand normalizedCmd r.command)
  match matching.getLast? with
  | none => (false, some "No matching permission rule found")
  | some rule =>
    if !rule.allowed then (false, some "Command not allowed by policy")
    else if (match rule.roles with
             | some rs => decide (0 < rs.length) &&
                 !(userRoles.any (fun ro => rs.contains ro))
             | none => false) then
      (false, some "Insufficient permissions")
    else if (match rule.maxConcurrent with
             | some n => decide (0 < n) && decide (n ≤ activeCount active userId)
             | none => false) then
      (false, some "Maximum concurrent command limit reached")
    else (true, none)

/-- The decision `checkPermission` takes once a winning rule is
selected, stated over that rule alone (used to express that the
decision is derived from the last matching rule). -/
def ruleDecision (rule : PermRule) (active : ActiveMap)
    (userId : String) (userRoles : List String) : Bool × Option String :=
  if !rule.allowed then (false, some "Command not allowed by policy")
  else if (match rule.roles with
           | some rs => decide (0 < rs.length) &&
               !(userRoles.any (fun ro => rs.contains ro))
           | none => false) then
    (false, some "Insufficient permissions")
  else if (match rule.maxConcurrent with
           | some n => decide (0 < n) && decide (n ≤ activeCount active userId)
           | none => false) then
    (false, some "Maximum concurrent command limit reached")
  else (true, none)

/-- `PermissionManager.trackCommandStart`: ensure the identity has a
set, then `Set.add` the command (append if absent). -/
def trackCommandStart (m : ActiveMap) (userId command : String) : ActiveMap :=
  match alistGet m userId with
  | none => alistSet m userId [command]
  | some l => alistSet m userId (if l.contains command then l else l ++ [command])

/-- `PermissionManager.trackCommandEnd`: `Set.delete` the command and
drop the identity's entry when its set becomes empty. -/
def trackCommandEnd (m : ActiveMap) (userId command : String) : ActiveMap :=
  match alistGet m userId with
  | none => m
  | some l =>
    let l2 := l.erase command
    if l2.isEmpty then alistDel m userId else alistSet m userId l2

/-! ### `CommandHistoryManager` (`src/utils/command-history.ts`) -/

/-- Status of a history entry. -/
inductive HStatus where
  | running
  | success
  | failed
deriving DecidableEq, Repr

/-- The status string written into the audit log for an entry. -/
def statusStr : HStatus → String
  | .running => "running"
  | .success => "success"
  | .failed => "failed"

/-- A `CommandHistoryEntry` (the free-form maps carry string values). -/
structure HistoryEntry where
  id : String
  timestamp : Nat
  userId : String
  command : String
  arguments : Args
  status : HStatus
  output : Option String := none
  error : Option String := none
  duration : Option Nat := none
  toolName : Option String := none
  metadata : List (String × String) := []
deriving DecidableEq, Repr

/-- The caller-supplied part of a new entry
(`Omit<CommandHistoryEntry, 'id' | 'timestamp'>`). -/
structure NewEntry where
  userId : String
  command : String
  arguments : Args := []
  status : HStatus
  output : Option String := none
  error : Option String := none
  duration : Option Nat := none
  toolName : Option String := none
  metadata : List (String × String) := []
deriving DecidableEq, Repr

/-- State of the `CommandHistoryManager`: the in-memory list, the
capacity, a counter standing in for `generateId`'s fresh random ids, a
clock standing in for `new Date()`, and the audit writes it emitted. -/
structure HistStore where
  history : List HistoryEntry
  maxHistory : Nat := 1000
  nextId : Nat := 0
  clock : Nat := 0
  audit : List AuditEv := []
deriving DecidableEq, Repr

/-- The id `generateId` hands to the `n`-th insertion (modelled as
fresh by construction). -/
def genId (n : Nat) : String := "id" ++ toString n

/-- Assemble the stored entry from the caller-supplied part, the fresh
id and the timestamp. -/
def mkEntry (e : NewEntry) (idn t : Nat) : HistoryEntry :=
  { id := genId idn, timestamp := t, userId := e.userId,
    command := e.command, arguments := e.arguments, status := e.status,
    output := e.output, error := e.error, duration := e.duration,
    toolName := e.toolName, metadata := e.metadata }

/-- An empty store with the given capacity. -/
def emptyStore (cap : Nat) : HistStore :=
  { history := [], maxHistory := cap }

/-- `CommandHistoryManager.addEntry`: prepend the new entry, trim to
capacity when the length exceeds it, and log a `command_executed`
audit entry. -/
def addEntry (st : HistStore) (e : NewEntry) : String × HistStore :=
  let ne := mkEntry e st.nextId st.clock
  let h1 := ne :: st.history
  let h2 := if st.maxHistory < h1.length then h1.take st.maxHistory else h1
  (ne.id,
   { history := h2, maxHistory := st.maxHistory, nextId := st.nextId + 1,
     clock := st.clock + 1,
     audit := st.audit ++
       [{ action := "command_executed", status := statusStr e.status,
          userId := some e.userId,
          resource := some (jsOrDefault e.toolName "unknown") }] })

/-- The update record
(`Partial<Omit<CommandHistoryEntry, 'id' | 'timestamp' | 'userId'>>`). -/
structure EntryUpdates where
  command : Option String := none
  arguments : Option Args := none
  status : Option HStatus := none
  output : Option String := none
  error : Option String := none
  duration : Option Nat := none
  toolName : Option String := none
  metadata : Option (List (String × String)) := none
deriving DecidableEq, Repr

/-- The object spread `{ ...entry, ...updates }`. -/
def applyUpdates (e : HistoryEntry) (u : EntryUpdates) : HistoryEntry :=
  { e with
    command := u.command.getD e.command,
    arguments := u.arguments.getD e.arguments,
    status := u.status.getD e.status,
    output := (match u.output with | some s => some s | none => e.output),
    error := (match u.error with | some s => some s | none => e.error),
    duration := (match u.duration with | some d => some d | none => e.duration),
    toolName := (match u.toolName with | some t => some t | none => e.toolName),
    metadata := u.metadata.getD e.metadata }

/-- `findIndex` plus in-place overwrite: rewrite the first entry whose
id matches, or report failure. -/
def updateFirst (id : String) (u : EntryUpdates) :
    List HistoryEntry → Option (List HistoryEntry)
  | [] => none
  | e :: rest =>
    if e.id == id then some (applyUpdates e u :: rest)
    else (updateFirst id u rest).map (fun t => e :: t)

/-- `CommandHistoryManager.updateEntry`.  Note: no status check — the
entry is updated whatever its current status. -/
def updateEntry (st : HistStore) (id : String) (u : EntryUpdates) :
    Bool × HistStore :=
  match updateFirst id u st.history with
  | none => (false, st)
  | some h => (true, { st with history := h })

/-- `CommandHistoryManager.getEntry`. -/
def getEntry (st : HistStore) (id : String) : Option HistoryEntry :=
  st.history.find? (fun e => e.id == id)

/-- The caller-supplied part of the entry `replayCommand` creates: a
`running` entry under the replaying identity whose metadata records the
original id and identity. -/
def replayInput (entryId userId : String) (entry : HistoryEntry) : NewEntry :=
  { userId := userId, command := entry.command,
    arguments := entry.arguments, status := .running,
    toolName := entry.toolName,
    metadata := [("replayedFrom", entryId), ("originalUser", entry.userId)] }

/-- The first phase of `replayCommand`: look up the original and add
the new entry. -/
def replayStart (st : HistStore) (entryId userId : String) :
    Option (HistoryEntry × String × HistStore) :=
  match getEntry st entryId with
  | none => none
  | some entry =>
    let p := addEntry st (replayInput entryId userId entry)
    some (entry, p.fst, p.snd)

/-- `CommandHistoryManager.replayCommand`: create the new running
entry, simulate the (stubbed) re-execution, update the new entry to
success and return it.  A missing original throws. -/
def replayCommand (st : HistStore) (entryId userId : String) :
    Except String (HistoryEntry × HistStore) :=
  match replayStart st entryId userId with
  | none => .error "Command not found in history"
  | some (entry, replayId, st1) =>
    let st2 := (updateEntry st1 replayId
      { status := some .success,
        output := some ("[REPLAY] " ++
          jsOrDefault entry.output "Command executed successfully"),
        duration := some 1000 }).snd
    match getEntry st2 replayId with
    | some ne => .ok (ne, st2)
    | none => .error "replayed entry missing"

/-- Lookup in a string metadata map. -/
def metaLookup (m : List (String × String)) (k : String) : Option String :=
  alistGet m k

/-! ### `TaskScheduler` (`src/utils/task-scheduler.ts`) -/

/-- A `ScheduledTask`. -/
structure ScheduledTask where
  id : String
  name : String
  description : Option String := none
  cronExpression : String
  command : String
  args : Args := []
  enabled : Bool
  userId : String
  lastRun : Option Nat := none
  nextRun : Option Nat := none
  createdAt : Nat
  updatedAt : Nat
  metadata : List (String × String) := []
deriving DecidableEq, Repr

/-- A `CronJob` held in the scheduler's `jobs` map: the cron spec, the
task object captured by its callback closure, and whether `start()` has
been called on it (a started job's schedule fires; a stopped or
never-started one never does). -/
structure CronJobState where
  cronExpression : String
  task : ScheduledTask
  started : Bool
deriving DecidableEq, Repr

/-- The cron library abstracted: whether an expression parses (the
`CronJob` constructor throws otherwise) and the next fire time after a
given instant. -/
structure CronEnv where
  validExpr : String → Bool
  nextDate : String → Nat → Nat

/-- State of the `TaskScheduler`: the `tasks` and `jobs` maps and a
clock standing in for `new Date()`. -/
structure SchedState where
  tasks : List (String × ScheduledTask)
  jobs : List (String × CronJobState)
  clock : Nat := 0
deriving DecidableEq, Repr

/-- `TaskScheduler.scheduleTask`: stop and remove any existing job for
the task, then build a fresh `CronJob`, record the task's `nextRun`,
and start the job only when the task is enabled.  An invalid cron
expression makes the constructor throw, which the source catches after
the old job was already removed. -/
def scheduleTask (env : CronEnv) (st : SchedState) (task : ScheduledTask) :
    SchedState :=
  let st1 : SchedState := { st with jobs := alistDel st.jobs task.id }
  if env.validExpr task.cronExpression then
    let t2 := { task with nextRun := some (env.nextDate task.cronExpression st.clock) }
    let job : CronJobState :=
      { cronExpression := task.cronExpression, task := t2,
        started := task.enabled }
    { st1 with
      tasks := alistSet st1.tasks task.id t2,
      jobs := alistSet st1.jobs task.id job }
  else st1

/-- The update record
(`Partial<Omit<ScheduledTask, 'id' | 'createdAt' | 'userId'>>`). -/
structure TaskUpdates where
  name : Option String := none
  description : Option String := none
  cronExpression : Option String := none
  command : Option String := none
  args : Option Args := none
  enabled : Option Bool := none
  lastRun : Option Nat := none
  nextRun : Option Nat := none
  metadata : Option (List (String × String)) := none
deriving DecidableEq, Repr

/-- The object spread `{ ...task, ...updates, updatedAt: new Date() }`. -/
def applyTaskUpdates (t : ScheduledTask) (u : TaskUpdates) (now : Nat) :
    ScheduledTask :=
  { t with
    name := u.name.getD t.name,
    description := (match u.description with | some s => some s | none => t.description),
    cronExpression := u.cronExpression.getD t.cronExpression,
    command := u.command.getD t.command,
    args := u.args.getD t.args,
    enabled := u.enabled.getD t.enabled,
    lastRun := (match u.lastRun with | some d => some d | none => t.lastRun),
    nextRun := (match u.nextRun with | some d => some d | none => t.nextRun),
    metadata := u.metadata.getD t.metadata,
    updatedAt := now }

/-- JavaScript truthiness of `updates.enabled || updates.cronExpression`
in `updateTask`: `enabled` is truthy only when present and `true`;
`cronExpression` only when present and nonempty. -/
def updateTriggersReschedule (u : TaskUpdates) : Bool :=
  (u.enabled == some true) ||
    (match u.cronExpression with
     | some s => !(s == "")
     | none => false)

/-- `TaskScheduler.updateTask`: merge the updates into the stored task
and reschedule only when `updates.enabled || updates.cronExpression` is
truthy. -/
def updateTask (env : CronEnv) (st : SchedState) (taskId : String)
    (u : TaskUpdates) : Option ScheduledTask × SchedState :=
  match alistGet st.tasks taskId with
  | none => (none, st)
  | some task =>
    let ut := applyTaskUpdates task u st.clock
    let st1 : SchedState := { st with tasks := alistSet st.tasks taskId ut }
    let st2 := if updateTriggersReschedule u then scheduleTask env st1 ut else st1
    (some ut, st2)

/-- A task's timer is live when its job exists and has been started —
exactly the condition under which its cron schedule fires. -/
def timerLive (st : SchedState) (taskId : String) : Bool :=
  match alistGet st.jobs taskId with
  | some j => j.started
  | none => false

/-! ### Derived iteration helpers used by the statements -/

/-- Successive insertions into the history store. -/
def insertAll (st : HistStore) (es : List NewEntry) : HistStore :=
  es.foldl (fun s e => (addEntry s e).snd) st

/-- The entries a run of insertions starting at id counter `n` and
clock `t` will store, in insertion order. -/
def stamped : List NewEntry → Nat → Nat → List HistoryEntry
  | [], _, _ => []
  | e :: rest, n, t => mkEntry e n t :: stamped rest (n + 1) (t + 1)

/-! ### Specification-side restatements (for the escaping claim) -/

/-- Specification reading of "first and last characters form matching
quotes". -/
def specMatchingQuotes (s : String) : Prop :=
  (strHead? s = some sq ∧ strLast? s = some sq) ∨
    (strHead? s = some dq ∧ strLast? s = some dq)

instance (s : String) : Decidable (specMatchingQuotes s) := by
  unfold specMatchingQuotes; infer_instance

/-- Specification reading of the safe character class. -/
def specSafeChars : List Char :=
  ['_', '-', '/', '.', ':', '?', '=', '&', '%', '@', '+', '~', ',']

/-- Specification reading of "consisting only of alphanumerics and the
listed characters". -/
def specSafeOnly (s : String) : Prop :=
  ∀ c ∈ s.toList, c.isAlphanum = true ∨ c ∈ specSafeChars

instance (s : String) : Decidable (specSafeOnly s) := by
  unfold specSafeOnly; infer_instance

/-- Specification reading of "each embedded single quote replaced by
the close-escape-reopen sequence". -/
def specQuoteEscape (s : String) : String :=
  String.mk ((s.toList.map
    (fun c => if c = sq then [sq, '\\', sq, sq] else [c])).flatten)

/-! ### Concrete fixtures used by individual claims -/

/-- A tool `probe` requiring a `target` argument, as in the audit-trail
scenario of the specification. -/
def probeDef : ToolDefinition :=
  { name := "probe", description := "Test probe tool", command := "probe",
    args := [{ name := "target", description := "Target to probe",
               required := true, type := .str }] }

/-- A cron environment in which every expression parses. -/
def c2Env : CronEnv :=
  { validExpr := fun _ => true, nextDate := fun _ t => t + 1 }

/-- An enabled every-minute task. -/
def c2Task : ScheduledTask :=
  { id := "t1", name := "minutely", cronExpression := "* * * * *",
    command := "nmap", enabled := true, userId := "u",
    createdAt := 0, updatedAt := 0 }

/-- Scheduler state holding the task above with a live (started)
timer, exactly as `createTask` leaves it: the task stored and
`scheduleTask` run on it. -/
def c2State : SchedState :=
  scheduleTask c2Env { tasks := [("t1", c2Task)], jobs := [], clock := 5 } c2Task

/-- The hard-coded default deny-all rule the `PermissionManager`
constructor puts first. -/
def c4DenyAll : PermRule :=
  { command := .regex (fun _ => true), allowed := false }

/-- An allow rule for `ping` with a role gate and a concurrency cap. -/
def c4PingRule : PermRule :=
  { command := .exact "ping", allowed := true, roles := some ["user"],
    maxConcurrent := some 2 }

/-- A terminal (success) history entry. -/
def c9Entry : HistoryEntry :=
  { id := "id0", timestamp := 0, userId := "u", command := "nmap --target x",
    arguments := [("target", .vstr "x")], status := .success,
    output := some "done" }

/-- A store holding only the terminal entry above. -/
def c9Store : HistStore := { history := [c9Entry] }

/-- A completed history entry, used to exercise replay. -/
def c6Orig : HistoryEntry :=
  { id := "a", timestamp := 0, userId := "bob",
    command := "nmap --target x",
    arguments := [("target", .vstr "x")], status := .success,
    output := some "scan done" }

/-- A store holding only that completed entry. -/
def c6Store : HistStore :=
  { history := [c6Orig], maxHistory := 5, nextId := 0, clock := 3 }

/-- Concrete entries for exercising capacity eviction. -/
def c5e1 : NewEntry := { userId := "u", command := "first", status := .success }

/-- Second concrete entry. -/
def c5e2 : NewEntry := { userId := "u", command := "second", status := .success }

/-- Third concrete entry. -/
def c5e3 : NewEntry := { userId := "u", command := "third", status := .success }

/-! ## Supporting lemmas -/

theorem alistGet_set_self {α : Type} (m : List (String × α)) (k : String) (v : α) :
    alistGet (alistSet m k v) k = some v := by
  induction m with
  | nil => simp [alistGet, alistSet, List.find?]
  | cons p rest ih =>
    obtain ⟨k2, v2⟩ := p
    cases h : (k2 == k) with
    | true => simp [alistGet, alistSet, List.find?, h]
    | false =>
      simp only [alistSet, h, Bool.false_eq_true, if_false]
      simpa [alistGet, List.find?, h] using ih

theorem alistSet_set_self {α : Type} (m : List (String × α)) (k : String) (v w : α) :
    alistSet (alistSet m k v) k w = alistSet m k w := by
  induction m with
  | nil => simp [alistSet]
  | cons p rest ih =>
    obtain ⟨k2, v2⟩ := p
    cases h : (k2 == k) with
    | true => simp [alistSet, h]
    | false => simp [alistSet, h, ih]

theorem alistSet_get_self {α : Type} (m : List (String × α)) (k : String) (v : α)
    (h : alistGet m k = some v) : alistSet m k v = m := by
  induction m with
  | nil => simp [alistGet, List.find?] at h
  | cons p rest ih =>
    obtain ⟨k2, v2⟩ := p
    cases h2 : (k2 == k) with
    | true =>
      simp [alistGet, List.find?, h2] at h
      simp [alistSet, h2, h]
    | false =>
      simp [alistGet, List.find?, h2] at h
      simp [alistSet, h2, ih h]

theorem alistDel_set_of_get_none {α : Type} (m : List (String × α)) (k : String) (v : α)
    (h : alistGet m k = none) : alistDel (alistSet m k v) k = m := by
  induction m with
  | nil => simp [alistSet, alistDel]
  | cons p rest ih =>
    obtain ⟨k2, v2⟩ := p
    cases h2 : (k2 == k) with
    | true => simp [alistGet, List.find?, h2] at h
    | false =>
      simp [alistGet, List.find?, h2] at h
      simp [alistSet, alistDel, h2, ih h]

theorem trackStart_idem (m : ActiveMap) (userId command : String) :
    trackCommandStart (trackCommandStart m userId command) userId command =
      trackCommandStart m userId command := by
  unfold trackCommandStart
  cases h : alistGet m userId with
  | none =>
    rw [alistGet_set_self]
    simp [alistSet_set_self]
  | some l =>
    rw [alistGet_set_self]
    cases hc : l.contains command with
    | true => simp [hc, alistSet_set_self]
    | false =>
      have hmem : (l ++ [command]).contains command = true := by
        simp [List.elem_iff]
      have hn : command ∉ l := fun hin => by
        simp [List.elem_iff] at hc
        exact hc hin
      simp [hc, hmem, hn, alistSet_set_self]

theorem trackEnd_trackStart (m : ActiveMap) (userId command : String)
    (h : ∀ l, alistGet m userId = some l → command ∉ l ∧ l ≠ []) :
    trackCommandEnd (trackCommandStart m userId command) userId command = m := by
  unfold trackCommandStart trackCommandEnd
  cases hg : alistGet m userId with
  | none =>
    rw [alistGet_set_self]
    simp [List.erase_cons_head]
    exact alistDel_set_of_get_none m userId [command] hg
  | some l =>
    obtain ⟨hnotin, hne⟩ := h l hg
    have hc : l.contains command = false := by
      simp [List.elem_iff, hnotin]
    rw [alistGet_set_self]
    simp only [hc, Bool.false_eq_true, if_false]
    rw [List.erase_append_right _ hnotin]
    simp only [List.erase_cons_head, List.append_nil]
    have : l.isEmpty = false := by
      cases l with
      | nil => exact absurd rfl hne
      | cons a t => rfl
    simp only [this, Bool.false_eq_true, if_false]
    rw [alistSet_set_self]
    exact alistSet_get_self m userId l hg

theorem trackStart_iterate (n : Nat) (m : ActiveMap) (userId command : String) :
    Nat.iterate (fun mm => trackCommandStart mm userId command) (n + 1) m =
      trackCommandStart m userId command := by
  induction n generalizing m with
  | zero => rfl
  | succ k ih =>
    have step : Nat.iterate (fun mm => trackCommandStart mm userId command) (k + 2) m =
        Nat.iterate (fun mm => trackCommandStart mm userId command) (k + 1)
          (trackCommandStart m userId command) := rfl
    rw [step, ih, trackStart_idem]

theorem updateFirst_forall2 (id : String) (u : EntryUpdates) :
    ∀ (l l2 : List HistoryEntry), updateFirst id u l = some l2 →
      List.Forall₂ (fun e e2 =>
        e2.id = e.id ∧ e2.timestamp = e.timestamp ∧ e2.userId = e.userId ∧
          (e.id ≠ id → e2 = e)) l l2 := by
  intro l
  induction l with
  | nil => intro l2 h; simp [updateFirst] at h
  | cons e rest ih =>
    intro l2 h
    unfold updateFirst at h
    cases hid : (e.id == id) with
    | true =>
      rw [hid] at h
      simp only [if_true] at h
      cases h
      constructor
      · refine ⟨rfl, rfl, rfl, fun hne => absurd (by simpa using hid) hne⟩
      · exact List.forall₂_same.mpr (fun x _ => ⟨rfl, rfl, rfl, fun _ => rfl⟩)
    | false =>
      rw [hid] at h
      simp only [Bool.false_eq_true, if_false, Option.map_eq_some'] at h
      obtain ⟨t, ht, rfl⟩ := h
      exact List.Forall₂.cons ⟨rfl, rfl, rfl, fun _ => rfl⟩ (ih t ht)

theorem validate_missing_first (tool : ToolDefinition) (args : Args) (d : ArgDef)
    (hhead : tool.args.head? = some d) (hreq : d.required = true)
    (hmiss : lookupArg args d.name = none) :
    validateArguments tool args =
      { valid := false, error := some ("Missing required argument: " ++ d.name) } := by
  unfold validateArguments
  cases harg : tool.args with
  | nil => rw [harg] at hhead; simp at hhead
  | cons x rest =>
    rw [harg] at hhead
    simp only [List.head?_cons, Option.some.injEq] at hhead
    subst hhead
    unfold validateArgList
    rw [hmiss, hreq]
    simp

theorem exec_invalid (tools : List (String × ToolDefinition)) (toolName : String)
    (tool : ToolDefinition) (args : Args) (userId : String)
    (exec : String → ExecOutcome) (msg : String)
    (hget : alistGet tools toolName = some tool)
    (hval : validateArguments tool args = { valid := false, error := some msg }) :
    executeTool tools toolName args userId exec =
      ({ text := "Invalid arguments: " ++ msg, isError := true },
       [Ev.audit { action := "tool_execution_started", status := "success",
                   userId := some userId, resource := some toolName }]) := by
  unfold executeTool
  rw [hget]
  simp [hval]

theorem req_head (tool : ToolDefinition) (d0 d : ArgDef)
    (hhead : tool.args.head? = some d0)
    (htail : ∀ a ∈ tool.args.tail, a.required = false)
    (hd : d ∈ tool.args) (hreq : d.required = true) : d = d0 := by
  cases harg : tool.args with
  | nil => rw [harg] at hd; simp at hd
  | cons x rest =>
    rw [harg] at hhead hd htail
    simp only [List.head?_cons, Option.some.injEq] at hhead
    simp only [List.tail_cons] at htail
    rcases List.mem_cons.mp hd with rfl | hmem
    · exact hhead
    · rw [htail d hmem] at hreq; cases hreq

theorem addEntry_history (st : HistStore) (e : NewEntry) :
    ((addEntry st e).snd).history =
      (mkEntry e st.nextId st.clock :: st.history).take st.maxHistory := by
  simp only [addEntry]
  by_cases hc : st.maxHistory < (mkEntry e st.nextId st.clock :: st.history).length
  · rw [if_pos hc]
  · rw [if_neg hc]
    rw [List.take_of_length_le (Nat.le_of_not_lt hc)]

theorem take_append_take {α : Type} (A l : List α) (n : Nat) :
    (A ++ l.take n).take n = (A ++ l).take n := by
  rw [List.take_append_eq_append_take, List.take_append_eq_append_take,
    List.take_take]
  congr 2
  omega

theorem insertAll_history (es : List NewEntry) :
    ∀ (st : HistStore), st.history.length ≤ st.maxHistory →
      (insertAll st es).history =
        ((stamped es st.nextId st.clock).reverse ++ st.history).take st.maxHistory := by
  induction es with
  | nil =>
    intro st h
    simp only [insertAll, List.foldl_nil, stamped, List.reverse_nil,
      List.nil_append]
    rw [List.take_of_length_le h]
  | cons e rest ih =>
    intro st h
    have hstep : insertAll st (e :: rest) = insertAll (addEntry st e).snd rest := rfl
    have hh1 := addEntry_history st e
    have hmax : ((addEntry st e).snd).maxHistory = st.maxHistory := rfl
    have hnext : ((addEntry st e).snd).nextId = st.nextId + 1 := rfl
    have hclock : ((addEntry st e).snd).clock = st.clock + 1 := rfl
    have hlen : ((addEntry st e).snd).history.length ≤
        ((addEntry st e).snd).maxHistory := by
      rw [hh1, hmax]
      exact List.length_take_le _ _
    rw [hstep, ih _ hlen, hh1, hmax, hnext, hclock]
    have hrev : (stamped (e :: rest) st.nextId st.clock).reverse =
        (stamped rest (st.nextId + 1) (st.clock + 1)).reverse ++
          [mkEntry e st.nextId st.clock] := by
      simp [stamped]
    rw [hrev, List.append_assoc, List.singleton_append, take_append_take]

theorem stamped_length (es : List NewEntry) :
    ∀ n t, (stamped es n t).length = es.length := by
  induction es with
  | nil => intro n t; rfl
  | cons e rest ih => intro n t; simp [stamped, ih]

theorem stamped_timestamp_le (es : List NewEntry) :
    ∀ n t x, x ∈ stamped es n t → t ≤ x.timestamp := by
  induction es with
  | nil => intro n t x hx; simp [stamped] at hx
  | cons e rest ih =>
    intro n t x hx
    rcases List.mem_cons.mp hx with rfl | hmem
    · exact Nat.le_refl _
    · exact Nat.le_of_succ_le (ih (n + 1) (t + 1) x hmem)

theorem specSafeOnly_iff (s : String) :
    (s.toList.all safeChar = true) ↔ specSafeOnly s := by
  rw [List.all_eq_true]
  unfold specSafeOnly safeChar
  constructor
  · intro h c hc
    have := h c hc
    simp only [Bool.or_eq_true, List.elem_iff] at this
    rcases this with h1 | h2
    · exact Or.inl h1
    · exact Or.inr (by simpa [specSafeChars] using h2)
  · intro h c hc
    rcases h c hc with h1 | h2
    · simp [h1]
    · simp [List.elem_iff]
      right
      simpa [specSafeChars] using h2

theorem specMatchingQuotes_iff (s : String) :
    (((strHead? s == some sq && strLast? s == some sq) ||
      (strHead? s == some dq && strLast? s == some dq)) = true) ↔
      specMatchingQuotes s := by
  simp [specMatchingQuotes]

theorem escQuotes_eq_spec (s : String) : escQuotes s = specQuoteEscape s := by
  unfold escQuotes specQuoteEscape
  congr 1
  induction s.toList with
  | nil => rfl
  | cons c l ih =>
    simp only [List.foldr_cons, List.map_cons, List.flatten_cons, ih]
    by_cases h : c = sq
    · simp [h]
    · simp [h]

/-! ## Claim theorems -/

/-- C1, counterexample: an execution request for `nikto` whose `host`
argument contains the shell metacharacter `;` is not rejected — the
request succeeds and a subprocess is spawned, so the claimed
request-wide dangerous-input screen does not run. -/
theorem c1_counterexample :
    hasDangerousChar "a;b" = true
    ∧ (executeTool kaliTools "nikto" [("host", Value.vstr "a;b")] "u"
        (fun _ => ExecOutcome.success "out")).fst.isError = false
    ∧ hasSpawn (executeTool kaliTools "nikto" [("host", Value.vstr "a;b")] "u"
        (fun _ => ExecOutcome.success "out")).snd = true := by
  decide

/-- C1, amended: `InputValidator.validateCommand` does reject strings
whose normalized form starts with a blacklisted pattern, contains a
path-traversal sequence, or contains a shell metacharacter, but
`executeTool` never invokes it: whenever the per-tool argument
validation passes and the Command Builder produces a command line, the
subprocess is spawned regardless of dangerous content in the argument
values. -/
theorem c1_no_global_screen :
    (∀ (tools : List (String × ToolDefinition)) (toolName : String)
        (tool : ToolDefinition) (args : Args) (userId : String)
        (exec : String → ExecOutcome) (cmd : String),
        alistGet tools toolName = some tool →
        (validateArguments tool args).valid = true →
        buildCommand tool args = Except.ok cmd →
        Ev.spawn cmd ∈ (executeTool tools toolName args userId exec).snd)
    ∧ (∀ s, (blacklistHit (normalizeCmdText s) || hasTraversal (normalizeCmdText s) ||
          hasDangerousChar (normalizeCmdText s)) = true →
        (validateCommand s).valid = false) := by
  constructor
  · intro tools toolName tool args userId exec cmd hget hval hbuild
    unfold executeTool
    rw [hget]
    simp only [hval, hbuild, if_true]
    cases hexec : exec cmd with
    | success out =>
      cases hvo : tool.validateOutput with
      | none => simp
      | some f =>
        by_cases hr : (f out).valid
        · simp [hr]
        · simp [hr]
    | failure emsg => simp
  · intro s h
    unfold validateCommand
    split_ifs with h1 h2 h3 h4 h5 <;> try rfl
    simp [h2, h3, h4] at h

/-- C1, witness: the amended theorem applied to the concrete `nikto`
request with a metacharacter-bearing argument, and to a concrete
dangerous string for the screen. -/
theorem c1_witness :
    Ev.spawn ("nikto --host " ++ escapeShellArg "a;b") ∈
      (executeTool kaliTools "nikto" [("host", Value.vstr "a;b")] "u"
        (fun _ => ExecOutcome.success "out")).snd
    ∧ (validateCommand "x;y").valid = false :=
  ⟨c1_no_global_screen.1 kaliTools "nikto" niktoDef
      [("host", Value.vstr "a;b")] "u" (fun _ => ExecOutcome.success "out")
      ("nikto --host " ++ escapeShellArg "a;b") (by rfl) (by decide) (by rfl),
   c1_no_global_screen.2 "x;y" (by decide)⟩

/-- C2: updating an enabled scheduled task with `enabled := false`
stores the disabled task but leaves the old cron timer live (started),
because `updateTask` reschedules only when
`updates.enabled || updates.cronExpression` is truthy, which a `false`
value never is; by contrast, `scheduleTask` itself, had it been
called, would have stopped the old job and left the new one
unstarted. -/
theorem c2_disable_leaves_timer_live :
    ((alistGet (updateTask c2Env c2State "t1" { enabled := some false }).snd.tasks
        "t1").map (fun t => t.enabled)) = some false
    ∧ timerLive (updateTask c2Env c2State "t1" { enabled := some false }).snd "t1" = true
    ∧ timerLive (scheduleTask c2Env c2State { c2Task with enabled := false }) "t1" = false := by
  decide

/-- C3: executing the `probe` tool (required argument `target`) with an
empty argument map yields an error result whose text contains
"Missing required argument", and the trace holds exactly one
`tool_execution_started` audit entry but zero `tool_execution_failed`
entries — the validation-failure path returns before the failure audit
write. -/
theorem c3_validation_failure_audit :
    (executeTool [("probe", probeDef)] "probe" [] "alice"
      (fun _ => ExecOutcome.success "")).fst.isError = true
    ∧ strContains (executeTool [("probe", probeDef)] "probe" [] "alice"
        (fun _ => ExecOutcome.success "")).fst.text "Missing required argument" = true
    ∧ countAudit (executeTool [("probe", probeDef)] "probe" [] "alice"
        (fun _ => ExecOutcome.success "")).snd "tool_execution_started" = 1
    ∧ countAudit (executeTool [("probe", probeDef)] "probe" [] "alice"
        (fun _ => ExecOutcome.success "")).snd "tool_execution_failed" = 0 := by
  decide

/-- C4: `checkPermission` is deterministic and total — repeated calls
on the same state agree, an empty match set yields a denial, and the
decision is exactly `ruleDecision` of the last rule (in list order)
whose pattern matches the command normalized to its first token. -/
theorem c4_checkPermission_deterministic (rules : List PermRule) (active : ActiveMap)
    (command userId : String) (userRoles : List String) :
    checkPermission rules active command userId userRoles =
      checkPermission rules active command userId userRoles
    ∧ (rules.filter (fun r => matchCommand (firstToken command) r.command) = [] →
        checkPermission rules active command userId userRoles =
          (false, some "No matching permission rule found"))
    ∧ (∀ rule,
        (rules.filter (fun r => matchCommand (firstToken command) r.command)).getLast? =
          some rule →
        checkPermission rules active command userId userRoles =
          ruleDecision rule active userId userRoles) := by
  refine ⟨rfl, ?_, ?_⟩
  · intro h
    simp [checkPermission, h]
  · intro rule h
    simp [checkPermission, ruleDecision, h]

/-- C4, witness: on a deny-all-then-allow-ping rule list the `ping`
rule is the last match and decides the call, which is allowed. -/
theorem c4_witness :
    ([c4DenyAll, c4PingRule].filter
        (fun r => matchCommand (firstToken "ping -c 1") r.command)).getLast? =
      some c4PingRule
    ∧ checkPermission [c4DenyAll, c4PingRule] [] "ping -c 1" "u" ["user"] =
        ruleDecision c4PingRule [] "u" ["user"]
    ∧ ruleDecision c4PingRule [] "u" ["user"] = (true, none) :=
  ⟨by rfl,
   (c4_checkPermission_deterministic [c4DenyAll, c4PingRule] [] "ping -c 1" "u"
      ["user"]).2.2 c4PingRule (by rfl),
   by rfl⟩

/-- C5: the history store never exceeds its capacity, insertion places
the new entry first, and a run of capacity + 1 insertions into an
empty store evicts exactly the first-inserted entry, leaving the most
recent `capacity` entries in most-recent-first order. -/
theorem c5_capacity_eviction :
    (∀ (st : HistStore) (e : NewEntry), st.history.length ≤ st.maxHistory →
        ((addEntry st e).snd).history.length ≤ st.maxHistory)
    ∧ (∀ (st : HistStore) (e : NewEntry), 1 ≤ st.maxHistory →
        ((addEntry st e).snd).history.head? = some (mkEntry e st.nextId st.clock))
    ∧ (∀ (cap : Nat) (es : List NewEntry), es.length = cap + 1 → 1 ≤ cap →
        (insertAll (emptyStore cap) es).history =
          (stamped es 0 0).reverse.take cap
        ∧ ∀ e0, es.head? = some e0 →
            mkEntry e0 0 0 ∉ (insertAll (emptyStore cap) es).history) := by
  refine ⟨?_, ?_, ?_⟩
  · intro st e h
    rw [addEntry_history st e]
    exact List.length_take_le _ _
  · intro st e h
    simp only [addEntry]
    by_cases hc : st.maxHistory < (mkEntry e st.nextId st.clock :: st.history).length
    · rw [if_pos hc]
      obtain ⟨m, hm⟩ : ∃ m, st.maxHistory = m + 1 := ⟨st.maxHistory - 1, by omega⟩
      rw [hm, List.take_succ_cons]
      rfl
    · rw [if_neg hc]
      rfl
  · intro cap es hlen hcap
    have hbase : (emptyStore cap).history.length ≤ (emptyStore cap).maxHistory := by
      simp [emptyStore]
    have hmain : (insertAll (emptyStore cap) es).history =
        (stamped es 0 0).reverse.take cap := by
      rw [insertAll_history es (emptyStore cap) hbase]
      simp [emptyStore]
    constructor
    · exact hmain
    · intro e0 he0
      cases es with
      | nil => simp at he0
      | cons efirst rest =>
        simp only [List.head?_cons, Option.some.injEq] at he0
        subst he0
        rw [hmain]
        have hrevform : (stamped (efirst :: rest) 0 0).reverse =
            (stamped rest 1 1).reverse ++ [mkEntry efirst 0 0] := by
          simp [stamped]
        have hrestlen : (stamped rest 1 1).reverse.length = cap := by
          simp only [List.length_reverse, stamped_length]
          simpa using hlen
        rw [hrevform]
        rw [← hrestlen, List.take_left]
        intro hmem
        have := stamped_timestamp_le rest 1 1 _ (List.mem_reverse.mp hmem)
        simp [mkEntry] at this

/-- C5, witness: three insertions into a store of capacity two leave
the two most recent entries newest-first and evict the first. -/
theorem c5_witness :
    (insertAll (emptyStore 2) [c5e1, c5e2, c5e3]).history =
      (stamped [c5e1, c5e2, c5e3] 0 0).reverse.take 2
    ∧ ∀ e0, [c5e1, c5e2, c5e3].head? = some e0 →
        mkEntry e0 0 0 ∉ (insertAll (emptyStore 2) [c5e1, c5e2, c5e3]).history :=
  c5_capacity_eviction.2.2 2 [c5e1, c5e2, c5e3] (by decide) (by decide)

/-- C6: replaying an existing entry creates a new entry — initially
`running` under the replaying identity, with `metadata.replayedFrom`
equal to the original id — and the completed replay still carries that
lineage while the original entry is returned unchanged by `getEntry`
and every surviving entry other than the new one is an entry of the
original store. -/
theorem c6_replay_lineage (st : HistStore) (entryId userId : String)
    (orig : HistoryEntry)
    (hget : getEntry st entryId = some orig)
    (hfresh : (genId st.nextId == entryId) = false)
    (hcap : st.history.length < st.maxHistory) :
    ∃ (st1 : HistStore) (ne : HistoryEntry) (st2 : HistStore),
      replayStart st entryId userId = some (orig, genId st.nextId, st1)
      ∧ (∃ e1, getEntry st1 (genId st.nextId) = some e1
          ∧ e1.status = HStatus.running ∧ e1.userId = userId
          ∧ metaLookup e1.metadata "replayedFrom" = some entryId)
      ∧ replayCommand st entryId userId = Except.ok (ne, st2)
      ∧ ne.userId = userId
      ∧ metaLookup ne.metadata "replayedFrom" = some entryId
      ∧ getEntry st2 entryId = some orig
      ∧ ∀ e ∈ st2.history, e.id ≠ genId st.nextId → e ∈ st.history := by
  set ne0 := mkEntry (replayInput entryId userId orig) st.nextId st.clock with hne0
  have hnotrim : ¬ (st.maxHistory < (ne0 :: st.history).length) := by
    simp only [List.length_cons]
    omega
  have hh1 : ((addEntry st (replayInput entryId userId orig)).snd).history =
      ne0 :: st.history := by
    show (if st.maxHistory < (ne0 :: st.history).length then
        (ne0 :: st.history).take st.maxHistory else ne0 :: st.history) =
      ne0 :: st.history
    rw [if_neg hnotrim]
  have hstart : replayStart st entryId userId =
      some (orig, genId st.nextId,
        (addEntry st (replayInput entryId userId orig)).snd) := by
    unfold replayStart
    rw [hget]
    rfl
  have hget1 : getEntry ((addEntry st (replayInput entryId userId orig)).snd)
      (genId st.nextId) = some ne0 := by
    unfold getEntry
    rw [hh1]
    have : (ne0.id == genId st.nextId) = true := by
      simp [hne0, mkEntry]
    simp [List.find?, this]
  set ru : EntryUpdates :=
    { status := some HStatus.success,
      output := some ("[REPLAY] " ++
        jsOrDefault orig.output "Command executed successfully"),
      duration := some 1000 } with hru
  have hupd : updateFirst (genId st.nextId) ru
      ((addEntry st (replayInput entryId userId orig)).snd).history =
      some (applyUpdates ne0 ru :: st.history) := by
    rw [hh1]
    unfold updateFirst
    have : (ne0.id == genId st.nextId) = true := by
      simp [hne0, mkEntry]
    rw [this]
    simp
  have hfinal : replayCommand st entryId userId =
      Except.ok (applyUpdates ne0 ru,
        { (addEntry st (replayInput entryId userId orig)).snd with
            history := applyUpdates ne0 ru :: st.history }) := by
    unfold replayCommand
    rw [hstart]
    simp only [updateEntry, hru]
    rw [hupd]
    simp only [getEntry, List.find?]
    have hid : ((applyUpdates ne0 ru).id == genId st.nextId) = true := by
      simp [applyUpdates, hne0, mkEntry]
    simp [hid]
  refine ⟨(addEntry st (replayInput entryId userId orig)).snd,
    applyUpdates ne0 ru,
    { (addEntry st (replayInput entryId userId orig)).snd with
        history := applyUpdates ne0 ru :: st.history },
    hstart, ⟨ne0, hget1, rfl, rfl, by rfl⟩, hfinal, rfl, by rfl, ?_, ?_⟩
  · unfold getEntry
    simp only [List.find?]
    have hid2 : ((applyUpdates ne0 ru).id == entryId) = false := by
      have : (applyUpdates ne0 ru).id = genId st.nextId := rfl
      rw [this]
      exact hfresh
    rw [hid2]
    exact hget
  · intro e he hne
    simp only [List.mem_cons] at he
    rcases he with rfl | hmem
    · exact absurd rfl hne
    · exact hmem

/-- C6, witness: replaying the stored entry `a` as identity `carol`
creates a running entry with lineage metadata and leaves the original
untouched. -/
theorem c6_witness :
    ∃ (st1 : HistStore) (ne : HistoryEntry) (st2 : HistStore),
      replayStart c6Store "a" "carol" = some (c6Orig, genId c6Store.nextId, st1)
      ∧ (∃ e1, getEntry st1 (genId c6Store.nextId) = some e1
          ∧ e1.status = HStatus.running ∧ e1.userId = "carol"
          ∧ metaLookup e1.metadata "replayedFrom" = some "a")
      ∧ replayCommand c6Store "a" "carol" = Except.ok (ne, st2)
      ∧ ne.userId = "carol"
      ∧ metaLookup ne.metadata "replayedFrom" = some "a"
      ∧ getEntry st2 "a" = some c6Orig
      ∧ ∀ e ∈ st2.history, e.id ≠ genId c6Store.nextId → e ∈ c6Store.history :=
  c6_replay_lineage c6Store "a" "carol" c6Orig (by rfl) (by decide) (by decide)

/-- C7: for every tool of the catalog, executing with an argument map
that omits a required argument yields an error result containing
"Missing required argument" and the trace contains no subprocess
spawn. -/
theorem c7_missing_required_no_spawn (key : String) (tool : ToolDefinition)
    (args : Args) (userId : String) (exec : String → ExecOutcome)
    (hmem : (key, tool) ∈ kaliTools)
    (hmiss : ∃ d ∈ tool.args, d.required = true ∧ lookupArg args d.name = none) :
    (executeTool kaliTools key args userId exec).fst.isError = true
    ∧ strContains (executeTool kaliTools key args userId exec).fst.text
        "Missing required argument" = true
    ∧ hasSpawn (executeTool kaliTools key args userId exec).snd = false := by
  obtain ⟨d, hd, hreq, hnone⟩ := hmiss
  simp only [kaliTools, List.mem_cons, List.not_mem_nil, or_false,
    Prod.mk.injEq] at hmem
  rcases hmem with hkt | hkt | hkt | hkt | hkt | hkt | hkt | hkt | hkt | hkt <;>
    obtain ⟨rfl, rfl⟩ := hkt
  all_goals
    have hdeq := req_head _ _ d (by rfl) (by decide) hd hreq
  all_goals
    subst hdeq
  all_goals
    rw [exec_invalid _ _ _ args userId exec _ (by rfl)
      (validate_missing_first _ args _ (by rfl) (by rfl) hnone)]
  all_goals
    exact ⟨rfl, by rfl, rfl⟩

/-- C7, witness: `nmap` invoked without its required `target` argument
errors out with no spawn. -/
theorem c7_witness :
    (executeTool kaliTools "nmap" [("ports", Value.vstr "80")] "u"
      (fun _ => ExecOutcome.success "")).fst.isError = true
    ∧ strContains (executeTool kaliTools "nmap" [("ports", Value.vstr "80")] "u"
        (fun _ => ExecOutcome.success "")).fst.text "Missing required argument" = true
    ∧ hasSpawn (executeTool kaliTools "nmap" [("ports", Value.vstr "80")] "u"
        (fun _ => ExecOutcome.success "")).snd = false :=
  c7_missing_required_no_spawn "nmap" nmapDef [("ports", Value.vstr "80")] "u"
    (fun _ => ExecOutcome.success "") (by simp [kaliTools])
    ⟨{ name := "target", required := true, type := .str,
       validation := some (fun v =>
         { valid := nmapTargetCheck (valueToString v),
           error := some "Invalid target format. Use hostname, IP, or CIDR notation" }) },
     by simp [nmapDef], by rfl, by rfl⟩

/-- C8: `escapeShellArg` maps the empty string to an empty quoted
literal, passes through input whose first and last characters form
matching quotes, passes through input drawn entirely from the safe
character class, and otherwise wraps the input in single quotes with
each embedded single quote replaced by the close-escape-reopen
sequence. -/
theorem c8_escapeShellArg_cases (arg : String) :
    (arg = "" → escapeShellArg arg = sqs ++ sqs)
    ∧ (specMatchingQuotes arg → escapeShellArg arg = arg)
    ∧ (¬ specMatchingQuotes arg → arg ≠ "" → specSafeOnly arg →
        escapeShellArg arg = arg)
    ∧ (¬ specMatchingQuotes arg → ¬ specSafeOnly arg →
        escapeShellArg arg = sqs ++ specQuoteEscape arg ++ sqs) := by
  refine ⟨?_, ?_, ?_, ?_⟩
  · intro h
    simp [escapeShellArg, h]
  · intro hq
    have hne : ¬ (arg == "") = true := by
      intro he
      have : arg = "" := by simpa using he
      subst this
      rcases hq with ⟨h1, _⟩ | ⟨h1, _⟩ <;> simp [strHead?] at h1
    unfold escapeShellArg
    rw [if_neg hne, if_pos ((specMatchingQuotes_iff arg).mpr hq)]
  · intro hnq hne hsafe
    unfold escapeShellArg
    rw [if_neg (by simpa using hne),
      if_neg (fun h => hnq ((specMatchingQuotes_iff arg).mp h)),
      if_pos ((specSafeOnly_iff arg).mpr hsafe)]
  · intro hnq hnsafe
    have hne : ¬ (arg == "") = true := by
      intro he
      have : arg = "" := by simpa using he
      subst this
      exact hnsafe (fun c hc => by simp at hc)
    unfold escapeShellArg
    rw [if_neg hne,
      if_neg (fun h => hnq ((specMatchingQuotes_iff arg).mp h)),
      if_neg (fun h => hnsafe ((specSafeOnly_iff arg).mp h)),
      escQuotes_eq_spec]

/-- C8, witness: a safe string passes through unchanged and an unsafe
string is wrapped and escaped. -/
theorem c8_witness :
    ("ab" ≠ "" ∧ ¬ specMatchingQuotes "ab" ∧ specSafeOnly "ab" ∧
      escapeShellArg "ab" = "ab")
    ∧ (¬ specMatchingQuotes "a b" ∧ ¬ specSafeOnly "a b" ∧
      escapeShellArg "a b" = sqs ++ specQuoteEscape "a b" ++ sqs) :=
  ⟨⟨by decide, by decide, by decide,
    (c8_escapeShellArg_cases "ab").2.2.1 (by decide) (by decide) (by decide)⟩,
   ⟨by decide, by decide,
    (c8_escapeShellArg_cases "a b").2.2.2 (by decide) (by decide)⟩⟩

/-- C9, counterexample: `updateEntry` changes the `output` field of an
entry whose status is `success`, so terminal entries are not
immutable. -/
theorem c9_counterexample :
    getEntry c9Store "id0" = some c9Entry
    ∧ c9Entry.status = HStatus.success
    ∧ getEntry (updateEntry c9Store "id0" { output := some "changed" }).snd "id0" =
        some { c9Entry with output := some "changed" }
    ∧ ({ c9Entry with output := some "changed" } : HistoryEntry) ≠ c9Entry := by
  decide

/-- C9, amended: `updateEntry` never changes any entry's `id`,
`timestamp` or `userId`, and leaves entries whose id differs from the
target unchanged; the matching entry is updated whatever its status —
mutability is not restricted to `running`. -/
theorem c9_update_preserves_identity (st : HistStore) (id : String) (u : EntryUpdates) :
    List.Forall₂ (fun e e2 =>
        e2.id = e.id ∧ e2.timestamp = e.timestamp ∧ e2.userId = e.userId ∧
          (e.id ≠ id → e2 = e))
      st.history ((updateEntry st id u).snd).history := by
  unfold updateEntry
  cases h : updateFirst id u st.history with
  | none =>
    exact List.forall₂_same.mpr (fun x _ => ⟨rfl, rfl, rfl, fun _ => rfl⟩)
  | some l2 =>
    exact updateFirst_forall2 id u st.history l2 h

/-- C9, witness: the amended preservation statement at the concrete
terminal-entry store. -/
theorem c9_witness :
    List.Forall₂ (fun e e2 =>
        e2.id = e.id ∧ e2.timestamp = e.timestamp ∧ e2.userId = e.userId ∧
          (e.id ≠ "id0" → e2 = e))
      c9Store.history
      ((updateEntry c9Store "id0" { output := some "changed" }).snd).history :=
  c9_update_preserves_identity c9Store "id0" { output := some "changed" }

/-- C10: concurrency tracking is idempotent per identity and command —
a second `trackCommandStart` of the same pair is a no-op, a single
`trackCommandEnd` undoes a fresh start, any number of starts of the
same pair equal one start, and therefore repeated in-flight executions
of the identical command string leave the `checkPermission`
concurrency decision exactly as after a single start. -/
theorem c10_tracking_idempotent :
    (∀ (m : ActiveMap) (userId command : String),
        trackCommandStart (trackCommandStart m userId command) userId command =
          trackCommandStart m userId command)
    ∧ (∀ (m : ActiveMap) (userId command : String),
        (∀ l, alistGet m userId = some l → command ∉ l ∧ l ≠ []) →
        trackCommandEnd (trackCommandStart m userId command) userId command = m)
    ∧ (∀ (n : Nat) (m : ActiveMap) (userId command : String),
        Nat.iterate (fun mm => trackCommandStart mm userId command) (n + 1) m =
          trackCommandStart m userId command)
    ∧ (∀ (n : Nat) (m : ActiveMap) (rules : List PermRule)
        (cmd uid2 : String) (roles : List String) (userId command : String),
        checkPermission rules
            (Nat.iterate (fun mm => trackCommandStart mm userId command) (n + 1) m)
            cmd uid2 roles =
          checkPermission rules (trackCommandStart m userId command) cmd uid2 roles) :=
  ⟨trackStart_idem,
   trackEnd_trackStart,
   trackStart_iterate,
   fun n m rules cmd uid2 roles userId command => by
     rw [trackStart_iterate]⟩

/-- C10, witness: ending a freshly started `ping` restores the prior
map, and three starts equal one. -/
theorem c10_witness :
    trackCommandEnd (trackCommandStart [("u", ["ls"])] "u" "ping") "u" "ping" =
      [("u", ["ls"])]
    ∧ Nat.iterate (fun mm => trackCommandStart mm "u" "ping") 3 [] =
      trackCommandStart [] "u" "ping" :=
  ⟨c10_tracking_idempotent.2.1 [("u", ["ls"])] "u" "ping"
     (fun l hl => by simp [alistGet, List.find?] at hl; subst hl; decide),
   c10_tracking_idempotent.2.2.1 2 [] "u" "ping"⟩

end KaliMCP
